import Mathlib

/-!
Shallow embedding of the alias-panel layout engine (package `panel`, current
version of `panel.go`) and of the `parser` package's section merging.

Modelling conventions:
* Text is `Str := List Char`; the Go code's `len` (bytes) and `[]rune`
  (runes) coincide on the ASCII fragment modelled here, and the spec speaks
  of characters throughout.
* Go `int` is `Int`; Go's `/` and `%` truncate toward zero, which is
  `Int.tdiv` / `Int.tmod`.
* A Go `map[string]T` is a finite association list `GoMap T` (entries in
  some arbitrary order, keys unique in any map produced by Go); indexing a
  missing key yields the zero value, modelled by `Option.getD` with the
  zero value as default.
* Screen effects are abstracted to the sequence of `drawSection` calls the
  layout pass emits (`Attempt`: the placement geometry plus the per-item
  render outcome) and to a pass outcome recording how the pass ended:
  normally, early-return on a small viewport, abort after a section error
  (the Go `return` in `drawPanels`), or a runtime panic (division by zero
  in `minHeight`).
-/

namespace AliasPanel

abbrev Str := List Char

abbrev GoMap (α : Type) := List (Str × α)

/-- Go struct `parser.Alias`. -/
structure Alias where
  name : Str
  cmd : Str
  desc : Str
deriving DecidableEq

/-- Go struct `parser.Section`. -/
structure Section where
  label : Str
  aliases : GoMap Alias
deriving DecidableEq

/-- Go zero value of `Alias` (what indexing a missing key returns). -/
def zeroAlias : Alias := ⟨[], [], []⟩

/-- Go zero value of `Section`. -/
def zeroSection : Section := ⟨[], []⟩

/-- Lookup in a Go map: the unique entry with the given key (first match;
keys are unique in maps built by Go). -/
def lookupGo {α : Type} : GoMap α → Str → Option α
  | [], _ => none
  | (k, v) :: rest, q => if k = q then some v else lookupGo rest q

/-- Go map assignment `m[k] = v`: replace the existing entry or add one. -/
def mapInsert {α : Type} : GoMap α → Str → α → GoMap α
  | [], k, v => [(k, v)]
  | (k', v') :: rest, k, v =>
    if k' = k then (k', v) :: rest else (k', v') :: mapInsert rest k v

/-- The later of two lookup results: `b`'s when it exists, else `a`'s. -/
def mergedLookup {α : Type} : Option α → Option α → Option α
  | some v, _ => some v
  | none, a => a

/-- The constants of `panel.go`. -/
def minWindowWidth : Int := 10

def minWindowHeight : Int := 10

def minPanelWidth : Int := 40

def maxPanelWidth : Int := 50

/-- The three-character marker `"..."` appended by `truncate`. -/
def ellipsisMarker : Str := ['.', '.', '.']

/-- Function `truncate(s, w)` from `panel.go`: error (`none`) on negative `w`;
unchanged if it fits; otherwise the first `w - 3` characters plus `"..."`
when that prefix is nonempty (i.e. `w ≥ 4`), else the first `w` characters
verbatim.  The builder's capacity after `Grow(w)` is exactly `w`, so the
first loop writes `max (w - 3) 0` characters; `b.Len() > 0` is equivalent
to `w - 3 > 0` here, and in the `else` branch the loop resumes at `i = 0`
and writes the first `w` characters. -/
def truncate (s : Str) (w : Int) : Option Str :=
  if w < 0 then none
  else if (s.length : Int) ≤ w then some s
  else
    let kept := s.take (w.toNat - 3)
    if 0 < kept.length then some (kept ++ ellipsisMarker)
    else some (s.take w.toNat)

/-- Function `minHeight(w, t)`: `len(t) / w`, plus one when the division has a
remainder.  Go panics when `w = 0`; that panic is modelled at the call
sites in the packer (`ColOutcome.panicked`), since Lean's `tdiv` is total. -/
def minHeight (w : Int) (t : Str) : Int :=
  let h := (t.length : Int).tdiv w
  if 0 < (t.length : Int).tmod w then h + 1 else h

/-- Function `maxColumns(w, miw, maw)` as in the current `panel.go`.  The source
reads

  var nc int
  if x1 > x2 { nc = x1 }
  nc = x2

so the conditional assignment is dead: `nc` is `x2` regardless of the
comparison, and only the zero fallback applies afterwards. -/
def maxColumns (w miw maw : Int) : Int :=
  let avail := w - 2
  let x1 := avail.tdiv (miw + 2)
  let x2 := avail.tdiv (maw + 2)
  let nc : Int := 0
  let nc := if x1 > x2 then x1 else nc
  let nc := x2
  if nc = 0 then 1 else nc

/-- Function `maxColumnWidth(w, nc, m) = (w - (1+nc)*m) / nc`. -/
def maxColumnWidth (w nc m : Int) : Int :=
  (w - (1 + nc) * m).tdiv nc

/-- The body line of one alias: `a.Name + ": " + a.Cmd`. -/
def aliasText (a : Alias) : Str := a.name ++ [':', ' '] ++ a.cmd

/-- Model of `sort.Strings`: lexicographic (byte-wise, here character-wise) sort. -/
def sortStrs (l : List Str) : List Str :=
  List.insertionSort (fun a b => a ≤ b) l

/-- The body-drawing loop of `drawSection`: iterate alias names in sorted
order, keep the accumulated vertical offset `rel = ay - y` (starting at 1),
and stop (`break`) as soon as the next alias would reach past `h`.
Returns the `(name, body text)` pairs actually drawn, in order.
`drawTextBox` errors inside the loop are logged and ignored by the source,
and cannot occur here since the caller guarantees `w ≥ 4`. -/
def sectionItemsGo (al : GoMap Alias) (w h : Int) : List Str → Int → List (Str × Str)
  | [], _ => []
  | an :: rest, rel =>
    let a := (lookupGo al an).getD zeroAlias
    let t := aliasText a
    let ah := minHeight (w - 2) t
    if h ≤ rel + ah then []
    else (an, t) :: sectionItemsGo al w h rest (rel + ah)

/-- Result of one `drawSection` call: the drawn items, or the
`InvalidArgument` error it returns. -/
inductive DrawRes where
  | ok (items : List (Str × Str))
  | err
deriving DecidableEq

/-- Function `drawSection(s, x, y, w, h, sn)`: errors if any of x, y, w, h is
negative, or if `truncate(sn.Label, w-4)` fails, i.e. `w - 4 < 0`;
otherwise draws frame, label, and the body items. -/
def drawSection (x y w h : Int) (sn : Section) : DrawRes :=
  if x < 0 ∨ y < 0 ∨ w < 0 ∨ h < 0 then .err
  else if w - 4 < 0 then .err
  else .ok (sectionItemsGo sn.aliases w h (sortStrs (sn.aliases.map Prod.fst)) 1)

/-- One emitted `drawSection` call of the layout pass: the block's label,
the placement geometry (`x`, `y`, width `w`, height `h = bh + 2`), and the
call's result. -/
structure Attempt where
  label : Str
  x : Int
  y : Int
  w : Int
  h : Int
  res : DrawRes
deriving DecidableEq

/-- How one column's inner loop ended. -/
inductive ColOutcome where
  /-- Case `continue loop` (height overflow) or `py < h` failing: move to the
  next column with the given blocks still unconsumed (the shared cursor). -/
  | next (blocks : List Str)
  /-- Case `break loop`: every section was drawn. -/
  | allDrawn
  /-- Case where `drawSection` returned an error: `drawPanels` logs it and returns. -/
  | aborted
  /-- Division by zero in `minHeight` (`pw - 2 = 0` with at least one
  alias): Go panics. -/
  | panicked
deriving DecidableEq

/-- How the whole layout pass ended. -/
inductive PassOutcome where
  | tooSmall
  | allDrawn
  | columnsFull
  | aborted
  | panicked
deriving DecidableEq

/-- Value `bh` of `drawPanels`: summed `minHeight(pw-2, ·)` over the section's
aliases (iteration order of the Go map is irrelevant to the sum). -/
def bodyHeight (pw : Int) (sn : Section) : Int :=
  (sn.aliases.map (fun kv => minHeight (pw - 2) (aliasText kv.2))).sum

/-- The inner (`for py < h`) loop of `drawPanels` for column `c`, carrying
the vertical cursor `py` and the remaining label list (the single cursor
`p` into the sorted labels, represented by the unconsumed suffix; the Go
guard `p >= len(sm)` is the suffix being empty, since the sorted label
slice has exactly `len(sm)` entries). -/
def packCol (sm : GoMap Section) (pw m h : Int) (c : Nat) :
    List Str → Int → List Attempt × ColOutcome
  | [], py => if h ≤ py then ([], .next []) else ([], .allDrawn)
  | sl :: rest, py =>
    if h ≤ py then ([], .next (sl :: rest))
    else
      let sn := (lookupGo sm sl).getD zeroSection
      if pw - 2 = 0 ∧ sn.aliases ≠ [] then ([], .panicked)
      else
        let bh := bodyHeight pw sn
        if h - 2 ≤ py + bh - 1 then ([], .next (sl :: rest))
        else
          let px := m + (pw + m) * (c : Int)
          match drawSection px py pw (bh + 2) sn with
          | .err => ([⟨sl, px, py, pw, bh + 2, .err⟩], .aborted)
          | .ok items =>
            let r := packCol sm pw m h c rest (py + bh + 2)
            (⟨sl, px, py, pw, bh + 2, .ok items⟩ :: r.1, r.2)

/-- The outer (`for c := 0; c < nc; c++`) loop of `drawPanels`; the first
argument counts the columns still to visit (`nc - c`), each column starts
at `py = m`. -/
def packCols (sm : GoMap Section) (pw m h : Int) : Nat → Nat → List Str →
    List Attempt × PassOutcome
  | 0, _, _ => ([], .columnsFull)
  | cols + 1, c, blocks =>
    match packCol sm pw m h c blocks m with
    | (atts, .next blocks') =>
      let r := packCols sm pw m h cols (c + 1) blocks'
      (atts ++ r.1, r.2)
    | (atts, .allDrawn) => (atts, .allDrawn)
    | (atts, .aborted) => (atts, .aborted)
    | (atts, .panicked) => (atts, .panicked)

/-- Function `drawPanels(s, sm, m)` on a `w × h` screen: nothing is drawn when the
viewport is below the fixed minimum; otherwise the sections are packed into
`maxColumns` columns of width `maxColumnWidth`, visiting labels in sorted
order. -/
def drawPanels (sm : GoMap Section) (w h m : Int) : List Attempt × PassOutcome :=
  if w < minWindowWidth ∨ h < minWindowHeight then ([], .tooSmall)
  else
    let nc := maxColumns w minPanelWidth maxPanelWidth
    let pw := maxColumnWidth w nc m
    let sls := sortStrs (sm.map Prod.fst)
    packCols sm pw m h nc.toNat 0 sls

/-- Function `parser.mergeSections`: fold Go's `a.Aliases[bk] = ba` over `b`'s
entries (the log line for redefinitions has no observable effect). -/
def mergeSections (a b : Section) : Section :=
  { a with aliases := b.aliases.foldl (fun acc kv => mapInsert acc kv.1 kv.2) a.aliases }

/-- Function `parser.mergeSectionMaps`. -/
def mergeSectionMaps (a b : GoMap Section) : GoMap Section :=
  b.foldl
    (fun acc kv =>
      match lookupGo acc kv.1 with
      | some asec => mapInsert acc kv.1 (mergeSections asec kv.2)
      | none => mapInsert acc kv.1 kv.2)
    a

/-- Labels of the successfully drawn placements, in emission order. -/
def okLabels (l : List Attempt) : List Str :=
  l.filterMap fun a =>
    match a.res with
    | .ok _ => some a.label
    | .err => none

/-- Two sections that are equal as mappings: same label, unique keys (a Go
map invariant), and the same name-to-alias association, regardless of the
order in which the underlying map yields its entries. -/
def SecEquiv (s t : Section) : Prop :=
  s.label = t.label ∧
  (s.aliases.map Prod.fst).Nodup ∧ (t.aliases.map Prod.fst).Nodup ∧
  ∀ k, lookupGo s.aliases k = lookupGo t.aliases k

/-- Pointwise `SecEquiv` on optional lookup results. -/
def OptSecEquiv : Option Section → Option Section → Prop
  | some s, some t => SecEquiv s t
  | none, none => True
  | _, _ => False

/-- Two group collections that are equal as mappings (same labels, and for
each label sections equal as mappings), regardless of entry order. -/
def MapEquiv (sm₁ sm₂ : GoMap Section) : Prop :=
  (sm₁.map Prod.fst).Nodup ∧ (sm₂.map Prod.fst).Nodup ∧
  ∀ k, OptSecEquiv (lookupGo sm₁ k) (lookupGo sm₂ k)

/-! Concrete inputs used in counterexamples and witnesses. -/

def strA : Str := ['A']

def strB : Str := ['B']

def strN : Str := ['a']

/-- One section, one alias whose body text has 22 characters: at viewport
`(10, 10)` with margin 2 the column width is 6, the interior width 4, so
the body height is `⌈22/4⌉ = 6` and the panel is placed at `y = 2` with
height 8, its bottom row being the last screen row. -/
def smC2 : GoMap Section :=
  [(strA, ⟨strA, [(strN, ⟨strN, List.replicate 19 'z', []⟩)]⟩)]

/-- One section whose body height is `⌈14/4⌉ = 4` at interior width 4: the
panel is placed at `y = 2` with height 6, so the cursor after placement is
`8 = viewportHeight - 2`. -/
def smC5x : GoMap Section :=
  [(strA, ⟨strA, [(strN, ⟨strN, List.replicate 11 'q', []⟩)]⟩)]

/-- One section whose body height `⌈33/4⌉ = 9` overflows a height-10
viewport from `y = 2`: the skip branch fires in every column. -/
def smTall : GoMap Section :=
  [(strA, ⟨strA, [(strN, ⟨strN, List.replicate 30 'q', []⟩)]⟩)]

/-- Two sections; with margin 51 on a `100 × 60` viewport the column width
is `-2`, so drawing section `A` fails with `InvalidArgument` and section
`B` is never attempted. -/
def smC3x : GoMap Section :=
  [(strB, ⟨strB, [(['c'], ⟨['c'], ['d'], []⟩)]⟩),
   (strA, ⟨strA, [(strN, ⟨strN, ['b'], []⟩)]⟩)]

/-- One section, one alias; with margin 4 on a `10 × 10` viewport the
column width is 2, so `minHeight` is called with width 0. -/
def smC10 : GoMap Section :=
  [(strA, ⟨strA, [(strN, ⟨strN, ['b'], []⟩)]⟩)]

/-- One section, one alias; at margin `-1` the sole placement has
`x = -1`, width 12 on a width-10 viewport. -/
def smCneg : GoMap Section :=
  [(strA, ⟨strA, [(strN, ⟨strN, ['b'], []⟩)]⟩)]

def secD1 : Section := ⟨strA, [(strN, ⟨strN, ['1'], []⟩), (['b'], ⟨['b'], ['2'], []⟩)]⟩

def secD2 : Section := ⟨strB, [(['c'], ⟨['c'], ['3'], []⟩)]⟩

/-- A two-section collection in one entry order. -/
def smD1 : GoMap Section := [(strA, secD1), (strB, secD2)]

/-- The same mapping as `smD1` with its entries in the other order. -/
def smD2 : GoMap Section := [(strB, secD2), (strA, secD1)]

def secM1 : Section := ⟨strA, [(strN, ⟨strN, ['1'], []⟩), (['x'], ⟨['x'], ['7'], []⟩)]⟩

def secM2 : Section := ⟨strA, [(strN, ⟨strN, ['2'], []⟩), (['y'], ⟨['y'], ['8'], []⟩)]⟩

def helloWorldStr : Str := "hello world".toList

def helloDotsStr : Str := "hello...".toList

def abcdStr : Str := ['a', 'b', 'c', 'd']

/-! ## Helper lemmas -/

theorem lookupGo_eq_none {α : Type} (l : GoMap α) (q : Str)
    (h : q ∉ l.map Prod.fst) : lookupGo l q = none := by
  induction l with
  | nil => rfl
  | cons kv rest ih =>
    obtain ⟨k, v⟩ := kv
    simp only [List.map_cons, List.mem_cons, not_or] at h
    simp only [lookupGo]
    rw [if_neg (fun hk => h.1 hk.symm), ih h.2]

theorem lookupGo_isSome {α : Type} (l : GoMap α) (q : Str) :
    (lookupGo l q).isSome = true ↔ q ∈ l.map Prod.fst := by
  induction l with
  | nil => simp [lookupGo]
  | cons kv rest ih =>
    obtain ⟨k, v⟩ := kv
    by_cases h : k = q
    · have hl : lookupGo ((k, v) :: rest) q = some v := by
        simp only [lookupGo, if_pos h]
      rw [hl]
      simp only [Option.isSome_some, List.map_cons, List.mem_cons]
      exact ⟨fun _ => Or.inl h.symm, fun _ => trivial⟩
    · simp only [lookupGo, if_neg h, List.map_cons, List.mem_cons]
      rw [ih]
      constructor
      · exact fun hm => Or.inr hm
      · rintro (hk | hm)
        · exact absurd hk.symm h
        · exact hm

theorem lookupGo_mapInsert {α : Type} (l : GoMap α) (k q : Str) (v : α) :
    lookupGo (mapInsert l k v) q = if k = q then some v else lookupGo l q := by
  induction l with
  | nil => simp only [mapInsert, lookupGo]
  | cons kv rest ih =>
    obtain ⟨k', v'⟩ := kv
    simp only [mapInsert]
    by_cases h : k' = k
    · subst h
      rw [if_pos rfl]
      simp only [lookupGo]
      by_cases hq : k' = q
      · simp only [if_pos hq]
      · simp only [if_neg hq]
    · rw [if_neg h]
      simp only [lookupGo, ih]
      by_cases hq : k' = q
      · have hkq : ¬ k = q := fun hk => h (hq.trans hk.symm)
        simp only [if_pos hq, if_neg hkq]
      · by_cases hk : k = q
        · simp only [if_neg hq, if_pos hk]
        · simp only [if_neg hq, if_neg hk]

theorem lookupGo_foldl_mapInsert {α : Type} (l : List (Str × α)) (m : GoMap α) (q : Str)
    (hnd : (l.map Prod.fst).Nodup) :
    lookupGo (l.foldl (fun acc kv => mapInsert acc kv.1 kv.2) m) q =
      mergedLookup (lookupGo l q) (lookupGo m q) := by
  induction l generalizing m with
  | nil => simp [lookupGo, mergedLookup]
  | cons kv rest ih =>
    obtain ⟨k, v⟩ := kv
    simp only [List.map_cons, List.nodup_cons] at hnd
    simp only [List.foldl_cons]
    rw [ih (mapInsert m k v) hnd.2]
    by_cases hq : k = q
    · have hrest : lookupGo rest q = none := lookupGo_eq_none rest q (hq ▸ hnd.1)
      rw [hrest]
      simp only [lookupGo, if_pos hq, lookupGo_mapInsert, mergedLookup]
    · simp only [lookupGo, if_neg hq]
      cases hr : lookupGo rest q with
      | some w => rfl
      | none =>
        simp only [mergedLookup, lookupGo_mapInsert, if_neg hq]

/-! ## C1 -/

/-- C1: the claim says `maxColumns` returns the larger of the two
integer-division candidates and in particular `maxColumns(100, 40, 50) = 2`.
The code instead always returns the `maxColWidth` candidate: the branch
`if x1 > x2 { nc = x1 }` is immediately overwritten by `nc = x2`.  At the
claim's own example the candidates are `98/42 = 2` and `98/52 = 1`, the
larger is 2, and the function returns 1. -/
theorem c1_maxColumns_returns_high_width_candidate :
    maxColumns 100 40 50 = 1 ∧
    (100 - 2 : Int).tdiv (40 + 2) = 2 ∧
    (100 - 2 : Int).tdiv (50 + 2) = 1 ∧
    max ((100 - 2 : Int).tdiv (40 + 2)) ((100 - 2 : Int).tdiv (50 + 2)) = 2 := by
  decide

/-! ## C7 -/

/-- C7: if the viewport is smaller than the fixed minimum in either
dimension (width < 10 or height < 10), `drawPanels` emits no drawing calls
and raises no error: it returns immediately with an empty attempt list. -/
theorem c7_small_viewport_renders_nothing (sm : GoMap Section) (w h m : Int)
    (hsmall : w < minWindowWidth ∨ h < minWindowHeight) :
    drawPanels sm w h m = ([], .tooSmall) := by
  unfold drawPanels
  rw [if_pos hsmall]

/-- C7 witness: a viewport of width 5 yields an empty frame. -/
theorem c7_witness :
    (5 : Int) < minWindowWidth ∧ drawPanels smC10 5 24 2 = ([], .tooSmall) :=
  ⟨by decide, c7_small_viewport_renders_nothing smC10 5 24 2 (Or.inl (by decide))⟩

/-! ## C10 -/

/-- C10: `minHeight` divides by its width argument without a guard, and the
division-by-zero case `w = 0` is reachable from `drawPanels`: at viewport
width 10 with margin 4 the column count is 1 and the column width
`maxColumnWidth(10, 1, 4) = 2`, so the body-height loop calls
`minHeight(pw - 2 = 0, ·)` on the first alias and the pass panics
(outcome `panicked`), before any drawing. -/
theorem c10_minHeight_div_by_zero_reachable :
    maxColumns 10 40 50 = 1 ∧
    maxColumnWidth 10 (maxColumns 10 40 50) 4 = 2 ∧
    drawPanels smC10 10 10 4 = ([], .panicked) := by
  decide

/-! ## C4 -/

/-- C4 counterexample: the claim asserts that for every `width ≥ 3` and
longer text the result ends with the ellipsis marker; at width exactly 3,
`truncate("abcd", 3) = "abc"`, which has length 3 but no marker (the code
appends the marker only when at least one content character is kept, i.e.
for `width ≥ 4`). -/
theorem c4_counterexample :
    ¬ (∀ (s : Str) (w : Int), 3 ≤ w → w < (s.length : Int) →
        ∃ r, truncate s w = some r ∧ (r.length : Int) = w ∧ ellipsisMarker <:+ r) := by
  intro hcl
  obtain ⟨r, hr, -, hsuf⟩ := hcl abcdStr 3 (by decide) (by decide)
  have h1 : truncate abcdStr 3 = some ['a', 'b', 'c'] := by decide
  rw [h1, Option.some_inj] at hr
  subst hr
  exact absurd hsuf (by decide)

/-- C4 amended: for `width ≥ 4` and `length(text) > width`, `truncate`
returns the first `width - 3` characters followed by the 3-character
ellipsis marker, of length exactly `width`; for `0 ≤ width ≤ 3` (not
`width < 3`) and `length(text) > width` it returns the first `width`
characters verbatim with no marker; `truncate("hello world", 8) =
"hello..."`. -/
theorem c4_truncate_amended :
    (∀ (s : Str) (w : Int), 4 ≤ w → w < (s.length : Int) →
        truncate s w = some (s.take (w.toNat - 3) ++ ellipsisMarker) ∧
        ((s.take (w.toNat - 3) ++ ellipsisMarker).length : Int) = w ∧
        ellipsisMarker <:+ s.take (w.toNat - 3) ++ ellipsisMarker) ∧
    (∀ (s : Str) (w : Int), 0 ≤ w → w ≤ 3 → w < (s.length : Int) →
        truncate s w = some (s.take w.toNat)) ∧
    truncate helloWorldStr 8 = some helloDotsStr := by
  refine ⟨?_, ?_, by decide⟩
  · intro s w hw hlen
    have hw0 : (0 : Int) ≤ w := by omega
    have hwn : (w.toNat : Int) = w := Int.toNat_of_nonneg hw0
    have hwn4 : 4 ≤ w.toNat := by omega
    have hslen : w.toNat < s.length := by omega
    have hkept : (s.take (w.toNat - 3)).length = w.toNat - 3 := by
      rw [List.length_take]
      omega
    have htr : truncate s w = some (s.take (w.toNat - 3) ++ ellipsisMarker) := by
      unfold truncate
      rw [if_neg (by omega), if_neg (by omega), if_pos (by omega)]
    refine ⟨htr, ?_, List.suffix_append _ _⟩
    have : ellipsisMarker.length = 3 := rfl
    rw [List.length_append, hkept, this]
    omega
  · intro s w hw0 hw3 hlen
    have hwn : (w.toNat : Int) = w := Int.toNat_of_nonneg hw0
    have hkept : (s.take (w.toNat - 3)).length = 0 := by
      rw [List.length_take]
      omega
    unfold truncate
    rw [if_neg (by omega), if_neg (by omega), if_neg (by omega)]

/-- C4 witness: the amended theorem at `("hello world", 8)` and
`("abcd", 3)`. -/
theorem c4_witness :
    (4 : Int) ≤ 8 ∧ (8 : Int) < (helloWorldStr.length : Int) ∧
    truncate helloWorldStr 8 = some (helloWorldStr.take ((8 : Int).toNat - 3) ++ ellipsisMarker) ∧
    truncate abcdStr 3 = some (abcdStr.take (3 : Int).toNat) :=
  ⟨by decide, by decide,
    (c4_truncate_amended.1 helloWorldStr 8 (by decide) (by decide)).1,
    c4_truncate_amended.2.1 abcdStr 3 (by decide) (by decide) (by decide)⟩

/-! ## C6 -/

theorem nat_ceil_div (n k : Nat) (hk : 1 ≤ k) :
    n / k + (if 0 < n % k then 1 else 0) = (n + k - 1) / k := by
  have hdm := Nat.div_add_mod n k
  have hlt : n % k < k := Nat.mod_lt n (by omega)
  rcases Nat.eq_zero_or_pos (n % k) with h0 | hpos
  · have h1 : n + k - 1 = k * (n / k) + (k - 1) := by omega
    rw [h1, Nat.mul_add_div (by omega), Nat.div_eq_of_lt (show k - 1 < k by omega), h0]
    simp
  · have h1 : n + k - 1 = k * (n / k + 1) + (n % k - 1) := by
      rw [Nat.mul_add, Nat.mul_one]
      omega
    rw [h1, Nat.mul_add_div (by omega), Nat.div_eq_of_lt (show n % k - 1 < k by omega),
      if_pos hpos]

theorem minHeight_eq_ceil (w : Int) (t : Str) (hw : 1 ≤ w) :
    minHeight w t = (((t.length + w.toNat - 1) / w.toNat : Nat) : Int) := by
  obtain ⟨k, rfl⟩ : ∃ k : Nat, w = (k : Int) :=
    ⟨w.toNat, (Int.toNat_of_nonneg (by omega)).symm⟩
  have hk : 1 ≤ k := by exact_mod_cast hw
  unfold minHeight
  rw [← Int.ofNat_tdiv, ← Int.ofNat_tmod, Int.toNat_ofNat]
  rw [← nat_ceil_div t.length k hk]
  by_cases hpos : 0 < t.length % k
  · rw [if_pos (by exact_mod_cast hpos), if_pos hpos]
    push_cast
    ring
  · rw [if_neg (by exact_mod_cast hpos), if_neg hpos]
    push_cast
    ring

/-- C6: for every `width ≥ 1`, `minHeight(width, text)` is the ceiling of
`length(text) / width` (stated as `(length + width - 1) / width` in natural
division), is monotone non-decreasing in `length(text)`, is 0 on the empty
text, and `minHeight(10, "a" * 25) = 3`. -/
theorem c6_minHeight_spec :
    (∀ (w : Int) (t : Str), 1 ≤ w →
        minHeight w t = (((t.length + w.toNat - 1) / w.toNat : Nat) : Int)) ∧
    (∀ (w : Int) (t u : Str), 1 ≤ w → t.length ≤ u.length →
        minHeight w t ≤ minHeight w u) ∧
    (∀ w : Int, 1 ≤ w → minHeight w [] = 0) ∧
    minHeight 10 (List.replicate 25 'a') = 3 := by
  refine ⟨minHeight_eq_ceil, ?_, ?_, by decide⟩
  · intro w t u hw hlen
    rw [minHeight_eq_ceil w t hw, minHeight_eq_ceil w u hw]
    have : (t.length + w.toNat - 1) / w.toNat ≤ (u.length + w.toNat - 1) / w.toNat :=
      Nat.div_le_div_right (by omega)
    exact_mod_cast this
  · intro w hw
    rw [minHeight_eq_ceil w [] hw]
    have hw1 : 1 ≤ w.toNat := by omega
    simp only [List.length_nil, Nat.zero_add]
    rw [Nat.div_eq_of_lt (by omega)]
    rfl

/-- C6 witness: the specification instantiated at `width = 10` and the
25-character text. -/
theorem c6_witness :
    (1 : Int) ≤ 10 ∧
    minHeight 10 (List.replicate 25 'a') =
      ((((List.replicate 25 'a').length + (10 : Int).toNat - 1) / (10 : Int).toNat : Nat) : Int) ∧
    minHeight 10 (List.replicate 20 'a') ≤ minHeight 10 (List.replicate 25 'a') ∧
    minHeight 10 [] = 0 :=
  ⟨by decide,
    c6_minHeight_spec.1 10 (List.replicate 25 'a') (by decide),
    c6_minHeight_spec.2.1 10 (List.replicate 20 'a') (List.replicate 25 'a') (by decide)
      (by decide),
    c6_minHeight_spec.2.2.1 10 (by decide)⟩

/-! ## C8 -/

/-- C8: merging section `b` into section `a` with `mergeSections` gives a
section whose alias for any name in both is `b`'s alias (last write wins),
and whose alias for a name in only one of them is that section's alias:
its lookup is `b`'s when that succeeds and `a`'s otherwise.  The key-set of
`b` is unique, as for every Go map. -/
theorem c8_mergeSections_last_write_wins (a b : Section) (hl : a.label = b.label)
    (hnd : (b.aliases.map Prod.fst).Nodup) (k : Str) :
    lookupGo (mergeSections a b).aliases k =
      mergedLookup (lookupGo b.aliases k) (lookupGo a.aliases k) := by
  have ha : (mergeSections a b).aliases =
      b.aliases.foldl (fun acc kv => mapInsert acc kv.1 kv.2) a.aliases := rfl
  rw [ha]
  exact lookupGo_foldl_mapInsert b.aliases a.aliases k hnd

/-- C8 witness: a name in both sections resolves to `b`'s alias, a name
only in `a` to `a`'s, a name only in `b` to `b`'s. -/
theorem c8_witness :
    secM1.label = secM2.label ∧ (secM2.aliases.map Prod.fst).Nodup ∧
    (lookupGo (mergeSections secM1 secM2).aliases strN =
      mergedLookup (lookupGo secM2.aliases strN) (lookupGo secM1.aliases strN)) ∧
    (lookupGo (mergeSections secM1 secM2).aliases ['x'] =
      mergedLookup (lookupGo secM2.aliases ['x']) (lookupGo secM1.aliases ['x'])) ∧
    (lookupGo (mergeSections secM1 secM2).aliases ['y'] =
      mergedLookup (lookupGo secM2.aliases ['y']) (lookupGo secM1.aliases ['y'])) :=
  ⟨by decide, by decide,
    c8_mergeSections_last_write_wins secM1 secM2 (by decide) (by decide) strN,
    c8_mergeSections_last_write_wins secM1 secM2 (by decide) (by decide) ['x'],
    c8_mergeSections_last_write_wins secM1 secM2 (by decide) (by decide) ['y']⟩

/-! ## C3 -/

theorem last_err_split :
    ∀ (pre2 : List Attempt) (a2 : Attempt) (pre post : List Attempt) (a : Attempt),
      pre2 ++ [a2] = pre ++ a :: post → (∀ b ∈ pre2, b.res ≠ .err) → a.res = .err →
      post = [] := by
  intro pre2 a2 pre
  induction pre generalizing pre2 with
  | nil =>
    intro post a hsplit hpre hres
    cases pre2 with
    | nil =>
      rw [List.nil_append, List.nil_append] at hsplit
      injection hsplit with h1 h2
      exact h2.symm
    | cons b pre2' =>
      rw [List.cons_append, List.nil_append] at hsplit
      injection hsplit with h1 h2
      have hb : b.res = .err := by rw [h1]; exact hres
      exact absurd hb (hpre b (List.mem_cons_self b pre2'))
  | cons x pre' ih =>
    intro post a hsplit hpre hres
    cases pre2 with
    | nil =>
      rw [List.nil_append, List.cons_append] at hsplit
      injection hsplit with h1 h2
      simp at h2
    | cons b pre2' =>
      rw [List.cons_append, List.cons_append] at hsplit
      injection hsplit with h1 h2
      exact ih pre2' post a h2 (fun b2 hb2 => hpre b2 (List.mem_cons_of_mem b hb2)) hres

theorem packCols_succ_next (sm : GoMap Section) (pw m h : Int) (cols c : Nat)
    (blocks blocks2 : List Str) (atts : List Attempt)
    (hpc : packCol sm pw m h c blocks m = (atts, .next blocks2)) :
    packCols sm pw m h (cols + 1) c blocks =
      (atts ++ (packCols sm pw m h cols (c + 1) blocks2).1,
       (packCols sm pw m h cols (c + 1) blocks2).2) := by
  simp only [packCols]
  rw [hpc]

theorem packCols_succ_allDrawn (sm : GoMap Section) (pw m h : Int) (cols c : Nat)
    (blocks : List Str) (atts : List Attempt)
    (hpc : packCol sm pw m h c blocks m = (atts, .allDrawn)) :
    packCols sm pw m h (cols + 1) c blocks = (atts, .allDrawn) := by
  simp only [packCols]
  rw [hpc]

theorem packCols_succ_aborted (sm : GoMap Section) (pw m h : Int) (cols c : Nat)
    (blocks : List Str) (atts : List Attempt)
    (hpc : packCol sm pw m h c blocks m = (atts, .aborted)) :
    packCols sm pw m h (cols + 1) c blocks = (atts, .aborted) := by
  simp only [packCols]
  rw [hpc]

theorem packCols_succ_panicked (sm : GoMap Section) (pw m h : Int) (cols c : Nat)
    (blocks : List Str) (atts : List Attempt)
    (hpc : packCol sm pw m h c blocks m = (atts, .panicked)) :
    packCols sm pw m h (cols + 1) c blocks = (atts, .panicked) := by
  simp only [packCols]
  rw [hpc]

theorem packCol_classify (sm : GoMap Section) (pw m h : Int) (c : Nat) :
    ∀ (blocks : List Str) (py : Int),
      ((packCol sm pw m h c blocks py).2 = .aborted ∧
        ∃ pre a, (packCol sm pw m h c blocks py).1 = pre ++ [a] ∧ a.res = .err ∧
          ∀ b ∈ pre, b.res ≠ .err) ∨
      ((packCol sm pw m h c blocks py).2 ≠ .aborted ∧
        ∀ b ∈ (packCol sm pw m h c blocks py).1, b.res ≠ .err) := by
  intro blocks
  induction blocks with
  | nil =>
    intro py
    right
    simp only [packCol]
    by_cases hpy : h ≤ py
    · rw [if_pos hpy]
      exact ⟨fun hco => ColOutcome.noConfusion hco, fun b hb => absurd hb (List.not_mem_nil b)⟩
    · rw [if_neg hpy]
      exact ⟨fun hco => ColOutcome.noConfusion hco, fun b hb => absurd hb (List.not_mem_nil b)⟩
  | cons sl rest ih =>
    intro py
    simp only [packCol]
    by_cases hpy : h ≤ py
    · rw [if_pos hpy]
      right
      exact ⟨fun hco => ColOutcome.noConfusion hco, fun b hb => absurd hb (List.not_mem_nil b)⟩
    · rw [if_neg hpy]
      by_cases hpanic : pw - 2 = 0 ∧ ((lookupGo sm sl).getD zeroSection).aliases ≠ []
      · rw [if_pos hpanic]
        right
        exact ⟨fun hco => ColOutcome.noConfusion hco, fun b hb => absurd hb (List.not_mem_nil b)⟩
      · rw [if_neg hpanic]
        by_cases hskip :
            h - 2 ≤ py + bodyHeight pw ((lookupGo sm sl).getD zeroSection) - 1
        · rw [if_pos hskip]
          right
          exact ⟨fun hco => ColOutcome.noConfusion hco, fun b hb => absurd hb (List.not_mem_nil b)⟩
        · rw [if_neg hskip]
          cases hds : drawSection (m + (pw + m) * (c : Int)) py pw
              (bodyHeight pw ((lookupGo sm sl).getD zeroSection) + 2)
              ((lookupGo sm sl).getD zeroSection) with
          | err =>
            left
            exact ⟨rfl, [], ⟨sl, m + (pw + m) * (c : Int), py, pw,
              bodyHeight pw ((lookupGo sm sl).getD zeroSection) + 2, .err⟩, rfl, rfl,
              fun b hb => absurd hb (List.not_mem_nil b)⟩
          | ok items =>
            rcases ih (py + bodyHeight pw ((lookupGo sm sl).getD zeroSection) + 2) with
              ⟨hab, pre, a, hsp, hres, hpre⟩ | ⟨hnab, hnone⟩
            · left
              refine ⟨hab, ⟨sl, m + (pw + m) * (c : Int), py, pw,
                bodyHeight pw ((lookupGo sm sl).getD zeroSection) + 2, .ok items⟩ :: pre,
                a, ?_, hres, ?_⟩
              · rw [List.cons_append, hsp]
              · intro b hb
                rcases List.mem_cons.mp hb with hb1 | hb2
                · subst hb1
                  intro hcontra
                  cases hcontra
                · exact hpre b hb2
            · right
              refine ⟨hnab, ?_⟩
              intro b hb
              rcases List.mem_cons.mp hb with hb1 | hb2
              · subst hb1
                intro hcontra
                cases hcontra
              · exact hnone b hb2

theorem packCols_classify (sm : GoMap Section) (pw m h : Int) :
    ∀ (cols c : Nat) (blocks : List Str),
      ((packCols sm pw m h cols c blocks).2 = .aborted ∧
        ∃ pre a, (packCols sm pw m h cols c blocks).1 = pre ++ [a] ∧ a.res = .err ∧
          ∀ b ∈ pre, b.res ≠ .err) ∨
      ((packCols sm pw m h cols c blocks).2 ≠ .aborted ∧
        ∀ b ∈ (packCols sm pw m h cols c blocks).1, b.res ≠ .err) := by
  intro cols
  induction cols with
  | zero =>
    intro c blocks
    right
    exact ⟨fun hco => PassOutcome.noConfusion hco, fun b hb => absurd hb (List.not_mem_nil b)⟩
  | succ cols ih =>
    intro c blocks
    rcases hpc : packCol sm pw m h c blocks m with ⟨atts, oc⟩
    rcases packCol_classify sm pw m h c blocks m with
      ⟨hab, pre, a, hsp, hres, hpre⟩ | ⟨hnab, hnone⟩
    · rw [hpc] at hab hsp
      have hoc : oc = .aborted := hab
      subst hoc
      rw [packCols_succ_aborted sm pw m h cols c blocks atts hpc]
      left
      exact ⟨rfl, pre, a, hsp, hres, hpre⟩
    · rw [hpc] at hnab hnone
      have hnone2 : ∀ b ∈ atts, b.res ≠ .err := hnone
      cases oc with
      | next blocks2 =>
        rw [packCols_succ_next sm pw m h cols c blocks blocks2 atts hpc]
        rcases ih (c + 1) blocks2 with ⟨hab2, pre2, a2, hsp2, hres2, hpre2⟩ | ⟨hnab2, hnone3⟩
        · left
          refine ⟨hab2, atts ++ pre2, a2, ?_, hres2, ?_⟩
          · rw [hsp2]
            exact (List.append_assoc atts pre2 [a2]).symm
          · intro b hb
            rcases List.mem_append.mp hb with hb1 | hb2
            · exact hnone2 b hb1
            · exact hpre2 b hb2
        · right
          refine ⟨hnab2, ?_⟩
          intro b hb
          rcases List.mem_append.mp hb with hb1 | hb2
          · exact hnone2 b hb1
          · exact hnone3 b hb2
      | allDrawn =>
        rw [packCols_succ_allDrawn sm pw m h cols c blocks atts hpc]
        right
        refine ⟨?_, hnone2⟩
        intro hco
        cases hco
      | aborted => exact absurd rfl hnab
      | panicked =>
        rw [packCols_succ_panicked sm pw m h cols c blocks atts hpc]
        right
        refine ⟨?_, hnone2⟩
        intro hco
        cases hco

/-- C3 counterexample: the claim implies that an `InvalidArgument` from one
block never cuts the pass short, i.e. the pass outcome is never the
error-return (`aborted`).  With two sections and margin 51 on a `100 × 60`
viewport the column width is `-2`: drawing the first (label-sorted) section
`A` fails the negativity check, the error is logged, and `drawPanels`
returns — section `B` is never attempted, the emitted call list being
exactly the one failing attempt. -/
theorem c3_counterexample :
    (¬ ∀ (sm : GoMap Section) (w h m : Int), (drawPanels sm w h m).2 ≠ .aborted) ∧
    drawPanels smC3x 100 60 51 = ([⟨strA, 51, 51, -2, 1, .err⟩], .aborted) ∧
    sortStrs (smC3x.map Prod.fst) = [strA, strB] := by
  exact ⟨fun hcl => hcl smC3x 100 60 51 (by decide), (by decide), (by decide)⟩

/-- C3 amended: within one layout pass, an `InvalidArgument` surfaced
while drawing one block is logged and that block's remaining drawing is
abandoned, and the *entire pass is aborted*: the failing `drawSection` call
is the last one emitted (nothing follows it) and the pass ends in the
error-return outcome, instead of continuing with the next block. -/
theorem c3_pass_aborts_on_error (sm : GoMap Section) (w h m : Int)
    (pre post : List Attempt) (a : Attempt)
    (hsplit : (drawPanels sm w h m).1 = pre ++ a :: post) (hres : a.res = .err) :
    post = [] ∧ (drawPanels sm w h m).2 = .aborted := by
  unfold drawPanels at hsplit ⊢
  by_cases hsmall : w < minWindowWidth ∨ h < minWindowHeight
  · rw [if_pos hsmall] at hsplit
    simp at hsplit
  · rw [if_neg hsmall] at hsplit ⊢
    rcases packCols_classify sm
        (maxColumnWidth w (maxColumns w minPanelWidth maxPanelWidth) m) m h
        (maxColumns w minPanelWidth maxPanelWidth).toNat 0
        (sortStrs (sm.map Prod.fst)) with
      ⟨hab, pre2, a2, hsp2, hres2, hpre2⟩ | ⟨hnab, hnone⟩
    · refine ⟨?_, hab⟩
      rw [hsplit] at hsp2
      exact last_err_split pre2 a2 pre post a hsp2.symm hpre2 hres
    · exact absurd hres (hnone a (hsplit ▸ List.mem_append_right pre (List.mem_cons_self a post)))

/-- C3 witness: the amended theorem at the concrete aborted run. -/
theorem c3_witness :
    (drawPanels smC3x 100 60 51).1 = [] ++ ⟨strA, 51, 51, -2, 1, .err⟩ :: [] ∧
    (drawPanels smC3x 100 60 51).2 = .aborted :=
  ⟨by decide,
    (c3_pass_aborts_on_error smC3x 100 60 51 [] [] ⟨strA, 51, 51, -2, 1, .err⟩
      (by decide) (by decide)).2⟩

/-! ## C5 -/

theorem packCol_nil (sm : GoMap Section) (pw m h : Int) (c : Nat) (py : Int) :
    packCol sm pw m h c [] py =
      if h ≤ py then ([], .next []) else ([], .allDrawn) := rfl

theorem packCol_cons_stop (sm : GoMap Section) (pw m h : Int) (c : Nat) (sl : Str)
    (rest : List Str) (py : Int) (hpy : h ≤ py) :
    packCol sm pw m h c (sl :: rest) py = ([], .next (sl :: rest)) := by
  simp only [packCol]
  rw [if_pos hpy]

theorem packCol_cons_panic (sm : GoMap Section) (pw m h : Int) (c : Nat) (sl : Str)
    (rest : List Str) (py : Int) (hpy : ¬ h ≤ py)
    (hpanic : pw - 2 = 0 ∧ ((lookupGo sm sl).getD zeroSection).aliases ≠ []) :
    packCol sm pw m h c (sl :: rest) py = ([], .panicked) := by
  simp only [packCol]
  rw [if_neg hpy, if_pos hpanic]

theorem packCol_cons_skip (sm : GoMap Section) (pw m h : Int) (c : Nat) (sl : Str)
    (rest : List Str) (py : Int) (hpy : ¬ h ≤ py)
    (hpanic : ¬ (pw - 2 = 0 ∧ ((lookupGo sm sl).getD zeroSection).aliases ≠ []))
    (hskip : h - 2 ≤ py + bodyHeight pw ((lookupGo sm sl).getD zeroSection) - 1) :
    packCol sm pw m h c (sl :: rest) py = ([], .next (sl :: rest)) := by
  simp only [packCol]
  rw [if_neg hpy, if_neg hpanic, if_pos hskip]

theorem packCol_cons_err (sm : GoMap Section) (pw m h : Int) (c : Nat) (sl : Str)
    (rest : List Str) (py : Int) (hpy : ¬ h ≤ py)
    (hpanic : ¬ (pw - 2 = 0 ∧ ((lookupGo sm sl).getD zeroSection).aliases ≠ []))
    (hskip : ¬ h - 2 ≤ py + bodyHeight pw ((lookupGo sm sl).getD zeroSection) - 1)
    (hds : drawSection (m + (pw + m) * (c : Int)) py pw
        (bodyHeight pw ((lookupGo sm sl).getD zeroSection) + 2)
        ((lookupGo sm sl).getD zeroSection) = .err) :
    packCol sm pw m h c (sl :: rest) py =
      ([⟨sl, m + (pw + m) * (c : Int), py, pw,
          bodyHeight pw ((lookupGo sm sl).getD zeroSection) + 2, .err⟩], .aborted) := by
  simp only [packCol]
  rw [if_neg hpy, if_neg hpanic, if_neg hskip, hds]

theorem packCol_cons_ok (sm : GoMap Section) (pw m h : Int) (c : Nat) (sl : Str)
    (rest : List Str) (py : Int) (items : List (Str × Str)) (hpy : ¬ h ≤ py)
    (hpanic : ¬ (pw - 2 = 0 ∧ ((lookupGo sm sl).getD zeroSection).aliases ≠ []))
    (hskip : ¬ h - 2 ≤ py + bodyHeight pw ((lookupGo sm sl).getD zeroSection) - 1)
    (hds : drawSection (m + (pw + m) * (c : Int)) py pw
        (bodyHeight pw ((lookupGo sm sl).getD zeroSection) + 2)
        ((lookupGo sm sl).getD zeroSection) = .ok items) :
    packCol sm pw m h c (sl :: rest) py =
      (⟨sl, m + (pw + m) * (c : Int), py, pw,
          bodyHeight pw ((lookupGo sm sl).getD zeroSection) + 2, .ok items⟩ ::
        (packCol sm pw m h c rest
          (py + bodyHeight pw ((lookupGo sm sl).getD zeroSection) + 2)).1,
       (packCol sm pw m h c rest
          (py + bodyHeight pw ((lookupGo sm sl).getD zeroSection) + 2)).2) := by
  simp only [packCol]
  rw [if_neg hpy, if_neg hpanic, if_neg hskip, hds]

theorem okLabels_append (l1 l2 : List Attempt) :
    okLabels (l1 ++ l2) = okLabels l1 ++ okLabels l2 :=
  List.filterMap_append l1 l2 _

theorem packCol_consumes_front (sm : GoMap Section) (pw m h : Int) (c : Nat) :
    ∀ (blocks : List Str) (py : Int),
      ∃ k, okLabels (packCol sm pw m h c blocks py).1 = blocks.take k ∧
        ∀ bl2, (packCol sm pw m h c blocks py).2 = .next bl2 → bl2 = blocks.drop k := by
  intro blocks
  induction blocks with
  | nil =>
    intro py
    rw [packCol_nil]
    by_cases hpy : h ≤ py
    · rw [if_pos hpy]
      refine ⟨0, rfl, fun bl2 hnext => ?_⟩
      injection hnext with h2
      exact h2.symm
    · rw [if_neg hpy]
      exact ⟨0, rfl, fun bl2 hnext => ColOutcome.noConfusion hnext⟩
  | cons sl rest ih =>
    intro py
    by_cases hpy : h ≤ py
    · rw [packCol_cons_stop sm pw m h c sl rest py hpy]
      refine ⟨0, rfl, fun bl2 hnext => ?_⟩
      injection hnext with h2
      exact h2.symm
    · by_cases hpanic : pw - 2 = 0 ∧ ((lookupGo sm sl).getD zeroSection).aliases ≠ []
      · rw [packCol_cons_panic sm pw m h c sl rest py hpy hpanic]
        exact ⟨0, rfl, fun bl2 hnext => ColOutcome.noConfusion hnext⟩
      · by_cases hskip : h - 2 ≤ py + bodyHeight pw ((lookupGo sm sl).getD zeroSection) - 1
        · rw [packCol_cons_skip sm pw m h c sl rest py hpy hpanic hskip]
          refine ⟨0, rfl, fun bl2 hnext => ?_⟩
          injection hnext with h2
          exact h2.symm
        · cases hds : drawSection (m + (pw + m) * (c : Int)) py pw
              (bodyHeight pw ((lookupGo sm sl).getD zeroSection) + 2)
              ((lookupGo sm sl).getD zeroSection) with
          | err =>
            rw [packCol_cons_err sm pw m h c sl rest py hpy hpanic hskip hds]
            exact ⟨0, rfl, fun bl2 hnext => ColOutcome.noConfusion hnext⟩
          | ok items =>
            rw [packCol_cons_ok sm pw m h c sl rest py items hpy hpanic hskip hds]
            obtain ⟨k, hk1, hk2⟩ :=
              ih (py + bodyHeight pw ((lookupGo sm sl).getD zeroSection) + 2)
            refine ⟨k + 1, ?_, ?_⟩
            · show sl :: okLabels (packCol sm pw m h c rest
                  (py + bodyHeight pw ((lookupGo sm sl).getD zeroSection) + 2)).1 =
                (sl :: rest).take (k + 1)
              rw [hk1]
              rfl
            · intro bl2 hnext
              exact hk2 bl2 hnext

theorem packCols_okLabels_front (sm : GoMap Section) (pw m h : Int) :
    ∀ (cols c : Nat) (blocks : List Str),
      ∃ k, okLabels (packCols sm pw m h cols c blocks).1 = blocks.take k := by
  intro cols
  induction cols with
  | zero =>
    intro c blocks
    exact ⟨0, rfl⟩
  | succ cols ih =>
    intro c blocks
    rcases hpc : packCol sm pw m h c blocks m with ⟨atts, oc⟩
    obtain ⟨k1, hk1, hk2⟩ := packCol_consumes_front sm pw m h c blocks m
    rw [hpc] at hk1 hk2
    cases oc with
    | next blocks2 =>
      rw [packCols_succ_next sm pw m h cols c blocks blocks2 atts hpc]
      obtain ⟨k2, hkk⟩ := ih (c + 1) blocks2
      refine ⟨k1 + k2, ?_⟩
      show okLabels (atts ++ (packCols sm pw m h cols (c + 1) blocks2).1) =
        blocks.take (k1 + k2)
      rw [okLabels_append, hk1, hkk, hk2 blocks2 rfl]
      exact (List.take_add blocks k1 k2).symm
    | allDrawn =>
      rw [packCols_succ_allDrawn sm pw m h cols c blocks atts hpc]
      exact ⟨k1, hk1⟩
    | aborted =>
      rw [packCols_succ_aborted sm pw m h cols c blocks atts hpc]
      exact ⟨k1, hk1⟩
    | panicked =>
      rw [packCols_succ_panicked sm pw m h cols c blocks atts hpc]
      exact ⟨k1, hk1⟩

theorem drawPanels_okLabels_front (sm : GoMap Section) (w h m : Int) :
    okLabels (drawPanels sm w h m).1 <+: sortStrs (sm.map Prod.fst) := by
  simp only [drawPanels]
  by_cases hsmall : w < minWindowWidth ∨ h < minWindowHeight
  · rw [if_pos hsmall]
    exact List.nil_prefix
  · rw [if_neg hsmall]
    obtain ⟨k, hk⟩ := packCols_okLabels_front sm
      (maxColumnWidth w (maxColumns w minPanelWidth maxPanelWidth) m) m h
      (maxColumns w minPanelWidth maxPanelWidth).toNat 0 (sortStrs (sm.map Prod.fst))
    rw [hk]
    exact List.take_prefix k _

/-- C5 counterexample: reading the claim's "column cursor" as the cursor
value after placing the block (it starts at the margin and advances by the
block's height `bh + 2`), the claim says a block whose placement makes it
reach or exceed `viewportHeight - 2` is not placed in the current column,
i.e. every successful placement has `y + height < viewportHeight - 2`.
The code's actual test is `py + bh - 1 ≥ h - 2`, three rows later: at
viewport `(10, 10)`, margin 2, a block of body height 4 is placed at
`y = 2` with height 6 even though `2 + 6 = 8 ≥ 8 = h - 2`. -/
theorem c5_counterexample :
    ¬ (∀ (sm : GoMap Section) (w h m : Int), ∀ a ∈ (drawPanels sm w h m).1,
        a.res ≠ .err → a.y + a.h < h - 2) := by
  intro hcl
  have hv := hcl smC5x 10 10 2
    ⟨strA, 2, 2, 6, 6, .ok [(strN, aliasText ⟨strN, List.replicate 11 'q', []⟩)]⟩
    (by decide) (by decide)
  exact absurd hv (by decide)

/-- C5 amended: the packer visits blocks in label-sorted order through a
single shared cursor — the labels of the successfully placed blocks always
form a prefix of the sorted label list, so a block consumed in one column
is never revisited and a block that fits in no remaining column (the
cursor never passes it before the columns run out) is dropped from the
frame.  A block is not placed in the current column exactly when
`py + bh - 1 ≥ viewportHeight - 2` (equivalently, when the cursor after
placement, `py + bh + 2`, would reach or exceed `viewportHeight + 1`, not
`viewportHeight - 2` as claimed): the column then yields `next` with the
cursor unchanged, and the pass advances to the following column, which
attempts that same block first — columns only ever advance. -/
theorem c5_packing_discipline :
    (∀ (sm : GoMap Section) (w h m : Int),
        okLabels (drawPanels sm w h m).1 <+: sortStrs (sm.map Prod.fst)) ∧
    (∀ (sm : GoMap Section) (pw m h : Int) (c : Nat) (sl : Str) (rest : List Str)
        (py : Int), py < h →
        ¬ (pw - 2 = 0 ∧ ((lookupGo sm sl).getD zeroSection).aliases ≠ []) →
        h - 2 ≤ py + bodyHeight pw ((lookupGo sm sl).getD zeroSection) - 1 →
        packCol sm pw m h c (sl :: rest) py = ([], .next (sl :: rest))) ∧
    (∀ (sm : GoMap Section) (pw m h : Int) (cols c : Nat) (blocks blocks2 : List Str)
        (atts : List Attempt),
        packCol sm pw m h c blocks m = (atts, .next blocks2) →
        packCols sm pw m h (cols + 1) c blocks =
          (atts ++ (packCols sm pw m h cols (c + 1) blocks2).1,
           (packCols sm pw m h cols (c + 1) blocks2).2)) :=
  ⟨drawPanels_okLabels_front,
    fun sm pw m h c sl rest py hpy hpanic hskip =>
      packCol_cons_skip sm pw m h c sl rest py (not_le.mpr hpy) hpanic hskip,
    fun sm pw m h cols c blocks blocks2 atts hpc =>
      packCols_succ_next sm pw m h cols c blocks blocks2 atts hpc⟩

/-- C5 witness: the packing discipline at concrete inputs — the prefix
property on a placed run, the skip equation for the over-tall section of
`smTall` at `py = 2` in column 0, and the column-advance equation it
triggers. -/
theorem c5_witness :
    okLabels (drawPanels smC5x 10 10 2).1 <+: sortStrs (smC5x.map Prod.fst) ∧
    packCol smTall 6 2 10 0 [strA] 2 = ([], .next [strA]) ∧
    packCols smTall 6 2 10 (1 + 1) 0 [strA] =
      ([] ++ (packCols smTall 6 2 10 1 (0 + 1) [strA]).1,
       (packCols smTall 6 2 10 1 (0 + 1) [strA]).2) :=
  ⟨c5_packing_discipline.1 smC5x 10 10 2,
    c5_packing_discipline.2.1 smTall 6 2 10 0 strA [] 2 (by decide) (by decide) (by decide),
    c5_packing_discipline.2.2 smTall 6 2 10 1 0 [strA] [strA] [] (by decide)⟩

/-! ## C2 -/

theorem tdiv_nonpos_of_nonpos (a b : Int) (ha : a ≤ 0) (hb : 0 ≤ b) : a.tdiv b ≤ 0 := by
  have h1 : 0 ≤ (-a).tdiv b := Int.tdiv_nonneg (by omega) hb
  have h2 : (-a).tdiv b = -a.tdiv b := Int.neg_tdiv a b
  omega

theorem mul_tdiv_le_self (a b : Int) (ha : 0 ≤ a) (hb : 0 < b) : b * a.tdiv b ≤ a := by
  have h1 := Int.tdiv_add_tmod a b
  have h2 : 0 ≤ a.tmod b := Int.tmod_nonneg b ha
  omega

theorem tdiv_le_self_of_nonneg (a b : Int) (ha : 0 ≤ a) (hb : 1 ≤ b) : a.tdiv b ≤ a := by
  have hq : 0 ≤ a.tdiv b := Int.tdiv_nonneg ha (by omega)
  have h1 : b * a.tdiv b ≤ a := mul_tdiv_le_self a b ha (by omega)
  have h2 : a.tdiv b ≤ b * a.tdiv b := le_mul_of_one_le_left hq hb
  linarith

theorem mul_tdiv_lower (a b : Int) (ha : a < 0) (hb : 0 < b) : b * a.tdiv b ≤ a + b - 1 := by
  have h1 := Int.tdiv_add_tmod a b
  have h4 := Int.tdiv_add_tmod (-a) b
  have h5 : (-a).tdiv b = -a.tdiv b := Int.neg_tdiv a b
  rw [h5] at h4
  have h2 : (-a).tmod b < b := Int.tmod_lt_of_pos (-a) hb
  have h2' : (-a).tmod b ≤ b - 1 := by omega
  have h4' : -(b * a.tdiv b) + (-a).tmod b = -a := by
    rw [mul_neg] at h4
    exact h4
  linarith

theorem maxColumns_pos (w : Int) (hw : 0 ≤ w - 2) :
    1 ≤ maxColumns w minPanelWidth maxPanelWidth := by
  have h2 : 0 ≤ (w - 2).tdiv (maxPanelWidth + 2) :=
    Int.tdiv_nonneg hw (by norm_num [maxPanelWidth])
  simp only [maxColumns]
  by_cases h0 : (w - 2).tdiv (maxPanelWidth + 2) = 0
  · rw [if_pos h0]
  · rw [if_neg h0]
    omega

/-- For `m ≥ 0` the first column never sticks out: `m + pw ≤ w`. -/
theorem first_col_bound (w nc m : Int) (hm : 0 ≤ m) (hnc : 1 ≤ nc) (hw : 0 ≤ w) :
    m + maxColumnWidth w nc m ≤ w := by
  simp only [maxColumnWidth]
  set A := w - (1 + nc) * m with hA
  have hncm : 0 ≤ nc * m := mul_nonneg (by omega) hm
  have hAw : A = w - m - nc * m := by rw [hA]; ring
  by_cases hApos : 0 ≤ A
  · have h1 : A.tdiv nc ≤ A := tdiv_le_self_of_nonneg A nc hApos hnc
    omega
  · have h1 : nc * A.tdiv nc ≤ A + nc - 1 := mul_tdiv_lower A nc (by omega) (by omega)
    by_contra hcon
    push_neg at hcon
    have h2 : nc * (w + 1) ≤ nc * (m + A.tdiv nc) :=
      mul_le_mul_of_nonneg_left (by omega) (by omega)
    have h3 : nc * (w + 1) = nc * w + nc := by ring
    have h4 : nc * (m + A.tdiv nc) = nc * m + nc * A.tdiv nc := by ring
    have h5 : w ≤ nc * w := le_mul_of_one_le_left hw hnc
    linarith

/-- For `pw ≥ 4` (hence a nonnegative dividend) every column fits:
`m + (pw + m) * cc + pw ≤ w` for `0 ≤ cc ≤ nc - 1`. -/
theorem any_col_bound (w nc m : Int) (hm : 0 ≤ m) (hnc : 1 ≤ nc)
    (hpw : 4 ≤ maxColumnWidth w nc m) (cc : Int) (hcc0 : 0 ≤ cc) (hcc : cc ≤ nc - 1) :
    m + (maxColumnWidth w nc m + m) * cc + maxColumnWidth w nc m ≤ w := by
  simp only [maxColumnWidth] at hpw ⊢
  set A := w - (1 + nc) * m with hA
  have hApos : 0 ≤ A := by
    by_contra hneg
    push_neg at hneg
    have := tdiv_nonpos_of_nonpos A nc (by omega) (by omega)
    omega
  have h2 : nc * A.tdiv nc ≤ A := mul_tdiv_le_self A nc hApos (by omega)
  have h1 : (A.tdiv nc + m) * cc ≤ (A.tdiv nc + m) * (nc - 1) :=
    mul_le_mul_of_nonneg_left hcc (by omega)
  have h3 : (A.tdiv nc + m) * (nc - 1) = nc * A.tdiv nc + nc * m - A.tdiv nc - m := by
    ring
  have h4 : A = w - m - nc * m := by rw [hA]; ring
  linarith

theorem packCol_shape (sm : GoMap Section) (pw m h : Int) (c : Nat) :
    ∀ (blocks : List Str) (py : Int), ∀ a ∈ (packCol sm pw m h c blocks py).1,
      a.w = pw ∧ a.x = m + (pw + m) * (c : Int) ∧ a.y + a.h ≤ h := by
  intro blocks
  induction blocks with
  | nil =>
    intro py a ha
    rw [packCol_nil] at ha
    by_cases hpy : h ≤ py
    · rw [if_pos hpy] at ha
      exact absurd ha (List.not_mem_nil a)
    · rw [if_neg hpy] at ha
      exact absurd ha (List.not_mem_nil a)
  | cons sl rest ih =>
    intro py a ha
    by_cases hpy : h ≤ py
    · rw [packCol_cons_stop sm pw m h c sl rest py hpy] at ha
      exact absurd ha (List.not_mem_nil a)
    · by_cases hpanic : pw - 2 = 0 ∧ ((lookupGo sm sl).getD zeroSection).aliases ≠ []
      · rw [packCol_cons_panic sm pw m h c sl rest py hpy hpanic] at ha
        exact absurd ha (List.not_mem_nil a)
      · by_cases hskip : h - 2 ≤ py + bodyHeight pw ((lookupGo sm sl).getD zeroSection) - 1
        · rw [packCol_cons_skip sm pw m h c sl rest py hpy hpanic hskip] at ha
          exact absurd ha (List.not_mem_nil a)
        · cases hds : drawSection (m + (pw + m) * (c : Int)) py pw
              (bodyHeight pw ((lookupGo sm sl).getD zeroSection) + 2)
              ((lookupGo sm sl).getD zeroSection) with
          | err =>
            rw [packCol_cons_err sm pw m h c sl rest py hpy hpanic hskip hds] at ha
            have ha2 := List.mem_singleton.mp ha
            subst ha2
            refine ⟨rfl, rfl, ?_⟩
            show py + (bodyHeight pw ((lookupGo sm sl).getD zeroSection) + 2) ≤ h
            omega
          | ok items =>
            rw [packCol_cons_ok sm pw m h c sl rest py items hpy hpanic hskip hds] at ha
            rcases List.mem_cons.mp ha with ha2 | hmem
            · subst ha2
              refine ⟨rfl, rfl, ?_⟩
              show py + (bodyHeight pw ((lookupGo sm sl).getD zeroSection) + 2) ≤ h
              omega
            · exact ih (py + bodyHeight pw ((lookupGo sm sl).getD zeroSection) + 2) a hmem

theorem packCols_shape (sm : GoMap Section) (pw m h : Int) :
    ∀ (cols c : Nat) (blocks : List Str), ∀ a ∈ (packCols sm pw m h cols c blocks).1,
      a.w = pw ∧ a.y + a.h ≤ h ∧
        ∃ cc : Nat, c ≤ cc ∧ cc < c + cols ∧ a.x = m + (pw + m) * (cc : Int) := by
  intro cols
  induction cols with
  | zero =>
    intro c blocks a ha
    exact absurd ha (List.not_mem_nil a)
  | succ cols ih =>
    intro c blocks a ha
    rcases hpc : packCol sm pw m h c blocks m with ⟨atts, oc⟩
    have hsh := packCol_shape sm pw m h c blocks m
    rw [hpc] at hsh
    cases oc with
    | next blocks2 =>
      rw [packCols_succ_next sm pw m h cols c blocks blocks2 atts hpc] at ha
      rcases List.mem_append.mp ha with h1 | h2
      · obtain ⟨hw, hx, hy⟩ := hsh a h1
        exact ⟨hw, hy, c, le_refl c, by omega, hx⟩
      · obtain ⟨hw, hy, cc, hcc1, hcc2, hx⟩ := ih (c + 1) blocks2 a h2
        exact ⟨hw, hy, cc, by omega, by omega, hx⟩
    | allDrawn =>
      rw [packCols_succ_allDrawn sm pw m h cols c blocks atts hpc] at ha
      obtain ⟨hw, hx, hy⟩ := hsh a ha
      exact ⟨hw, hy, c, le_refl c, by omega, hx⟩
    | aborted =>
      rw [packCols_succ_aborted sm pw m h cols c blocks atts hpc] at ha
      obtain ⟨hw, hx, hy⟩ := hsh a ha
      exact ⟨hw, hy, c, le_refl c, by omega, hx⟩
    | panicked =>
      rw [packCols_succ_panicked sm pw m h cols c blocks atts hpc] at ha
      obtain ⟨hw, hx, hy⟩ := hsh a ha
      exact ⟨hw, hy, c, le_refl c, by omega, hx⟩

theorem drawSection_low (x y w hh : Int) (sn : Section) (hw : w ≤ 3) :
    drawSection x y w hh sn = .err := by
  unfold drawSection
  by_cases h1 : x < 0 ∨ y < 0 ∨ w < 0 ∨ hh < 0
  · rw [if_pos h1]
  · rw [if_neg h1, if_pos (by omega : w - 4 < 0)]

theorem packCol_low (sm : GoMap Section) (pw m h : Int) (c : Nat) (hpw : pw ≤ 3)
    (blocks : List Str) (py : Int) :
    packCol sm pw m h c blocks py = ([], .next blocks) ∨
    packCol sm pw m h c blocks py = ([], .allDrawn) ∨
    packCol sm pw m h c blocks py = ([], .panicked) ∨
    ∃ a, packCol sm pw m h c blocks py = ([a], .aborted) := by
  cases blocks with
  | nil =>
    rw [packCol_nil]
    by_cases hpy : h ≤ py
    · rw [if_pos hpy]
      left
      rfl
    · rw [if_neg hpy]
      right
      left
      rfl
  | cons sl rest =>
    by_cases hpy : h ≤ py
    · left
      exact packCol_cons_stop sm pw m h c sl rest py hpy
    · by_cases hpanic : pw - 2 = 0 ∧ ((lookupGo sm sl).getD zeroSection).aliases ≠ []
      · right
        right
        left
        exact packCol_cons_panic sm pw m h c sl rest py hpy hpanic
      · by_cases hskip : h - 2 ≤ py + bodyHeight pw ((lookupGo sm sl).getD zeroSection) - 1
        · left
          exact packCol_cons_skip sm pw m h c sl rest py hpy hpanic hskip
        · right
          right
          right
          exact ⟨_, packCol_cons_err sm pw m h c sl rest py hpy hpanic hskip
            (drawSection_low _ _ _ _ _ hpw)⟩

/-- A column that consumes nothing decides identically in every column:
its branch conditions do not involve the column index. -/
theorem packCol_next_self (sm : GoMap Section) (pw m h : Int) (c : Nat)
    (blocks : List Str)
    (hn : packCol sm pw m h c blocks m = ([], .next blocks)) (c2 : Nat) :
    packCol sm pw m h c2 blocks m = ([], .next blocks) := by
  cases blocks with
  | nil =>
    rw [packCol_nil] at hn ⊢
    by_cases hpy : h ≤ m
    · rw [if_pos hpy]
    · rw [if_neg hpy] at hn
      injection hn with h1 h2
      exact ColOutcome.noConfusion h2
  | cons sl rest =>
    by_cases hpy : h ≤ m
    · exact packCol_cons_stop sm pw m h c2 sl rest m hpy
    · by_cases hpanic : pw - 2 = 0 ∧ ((lookupGo sm sl).getD zeroSection).aliases ≠ []
      · rw [packCol_cons_panic sm pw m h c sl rest m hpy hpanic] at hn
        injection hn with h1 h2
        exact ColOutcome.noConfusion h2
      · by_cases hskip : h - 2 ≤ m + bodyHeight pw ((lookupGo sm sl).getD zeroSection) - 1
        · exact packCol_cons_skip sm pw m h c2 sl rest m hpy hpanic hskip
        · cases hds : drawSection (m + (pw + m) * (c : Int)) m pw
              (bodyHeight pw ((lookupGo sm sl).getD zeroSection) + 2)
              ((lookupGo sm sl).getD zeroSection) with
          | err =>
            rw [packCol_cons_err sm pw m h c sl rest m hpy hpanic hskip hds] at hn
            injection hn with h1 h2
            exact List.noConfusion h1
          | ok items =>
            rw [packCol_cons_ok sm pw m h c sl rest m items hpy hpanic hskip hds] at hn
            injection hn with h1 h2
            exact List.noConfusion h1

/-- After a no-consumption column, no later column emits anything. -/
theorem packCols_after_skip (sm : GoMap Section) (pw m h : Int) (c0 : Nat)
    (blocks : List Str)
    (hn : packCol sm pw m h c0 blocks m = ([], .next blocks)) :
    ∀ (cols c : Nat), (packCols sm pw m h cols c blocks).1 = [] := by
  intro cols
  induction cols with
  | zero =>
    intro c
    rfl
  | succ cols ih =>
    intro c
    have hrep := packCol_next_self sm pw m h c0 blocks hn c
    rw [packCols_succ_next sm pw m h cols c blocks blocks [] hrep]
    show [] ++ (packCols sm pw m h cols (c + 1) blocks).1 = []
    rw [List.nil_append]
    exact ih (c + 1)

/-- With a column width of at most 3 every attempt (there is at most one)
sits in the starting column. -/
theorem packCols_low_shape (sm : GoMap Section) (pw m h : Int) (hpw : pw ≤ 3) :
    ∀ (cols c : Nat) (blocks : List Str), ∀ a ∈ (packCols sm pw m h cols c blocks).1,
      a.w = pw ∧ a.y + a.h ≤ h ∧ a.x = m + (pw + m) * (c : Int) := by
  intro cols c blocks a ha
  cases cols with
  | zero => exact absurd ha (List.not_mem_nil a)
  | succ cols =>
    rcases packCol_low sm pw m h c hpw blocks m with hn | hd | hp | ⟨a2, hab⟩
    · rw [packCols_after_skip sm pw m h c blocks hn (cols + 1) c] at ha
      exact absurd ha (List.not_mem_nil a)
    · rw [packCols_succ_allDrawn sm pw m h cols c blocks [] hd] at ha
      exact absurd ha (List.not_mem_nil a)
    · rw [packCols_succ_panicked sm pw m h cols c blocks [] hp] at ha
      exact absurd ha (List.not_mem_nil a)
    · rw [packCols_succ_aborted sm pw m h cols c blocks [a2] hab] at ha
      have hsh := packCol_shape sm pw m h c blocks m
      rw [hab] at hsh
      obtain ⟨hw, hx, hy⟩ := hsh a ha
      exact ⟨hw, hy, hx⟩

/-- C2 counterexample: the claimed bound `origin.y + height ≤
viewportHeight - 1` fails — at viewport `(10, 10)` with margin 2 the single
section of `smC2` is placed at `y = 2` with height 8, so `y + height = 10 =
viewportHeight`; and for a negative margin even the claimed horizontal
bound fails — at margin `-1` the emitted placement has `x = -1`, width 12
on a width-10 viewport. -/
theorem c2_counterexample :
    (¬ ∀ (sm : GoMap Section) (w h m : Int), ∀ a ∈ (drawPanels sm w h m).1,
        a.y + a.h ≤ h - 1 ∧ a.x + a.w ≤ w) ∧
    (∃ a ∈ (drawPanels smCneg 10 10 (-1)).1, ¬ a.x + a.w ≤ 10) := by
  constructor
  · intro hcl
    have hv := (hcl smC2 10 10 2
      ⟨strA, 2, 2, 6, 8, .ok [(strN, aliasText ⟨strN, List.replicate 19 'z', []⟩)]⟩
      (by decide)).1
    exact absurd hv (by decide)
  · decide

/-- C2 amended: for margins `m ≥ 0`, every placement emitted by the packer
satisfies `origin.y + height ≤ viewportHeight` (the bottom border row is
the last screen row, not `viewportHeight - 1`) and `origin.x + width ≤
viewportWidth`; negative margins can violate the horizontal bound. -/
theorem c2_placements_in_bounds (sm : GoMap Section) (w h m : Int) (hm : 0 ≤ m) :
    ∀ a ∈ (drawPanels sm w h m).1, a.y + a.h ≤ h ∧ a.x + a.w ≤ w := by
  intro a ha
  rw [drawPanels] at ha
  by_cases hsmall : w < minWindowWidth ∨ h < minWindowHeight
  · rw [if_pos hsmall] at ha
    exact absurd ha (List.not_mem_nil a)
  · rw [if_neg hsmall] at ha
    simp only [] at ha
    push_neg at hsmall
    have hw10 : (10 : Int) ≤ w := by
      have := hsmall.1
      simp only [minWindowWidth] at this
      omega
    set nc := maxColumns w minPanelWidth maxPanelWidth with hnc
    set pw := maxColumnWidth w nc m with hpw
    have hnc1 : 1 ≤ nc := maxColumns_pos w (by omega)
    have hncNat : ((nc.toNat : Int)) = nc := Int.toNat_of_nonneg (by omega)
    by_cases hpw4 : 4 ≤ pw
    · obtain ⟨hwq, hy, cc, hcc1, hcc2, hx⟩ :=
        packCols_shape sm pw m h nc.toNat 0 (sortStrs (sm.map Prod.fst)) a ha
      refine ⟨hy, ?_⟩
      rw [hx, hwq]
      have hccb : (cc : Int) ≤ nc - 1 := by
        have h6 : cc < nc.toNat := by omega
        have h7 : (cc : Int) < (nc.toNat : Int) := by exact_mod_cast h6
        omega
      have := any_col_bound w nc m hm hnc1 (hpw ▸ hpw4) (cc : Int) (by positivity) hccb
      rw [← hpw] at this
      linarith
    · obtain ⟨hwq, hy, hx⟩ :=
        packCols_low_shape sm pw m h (by omega) nc.toNat 0 (sortStrs (sm.map Prod.fst)) a ha
      refine ⟨hy, ?_⟩
      rw [hx, hwq]
      have := first_col_bound w nc m hm hnc1 (by omega)
      rw [← hpw] at this
      simp only [Nat.cast_zero, mul_zero, add_zero]
      linarith

/-- C2 witness: the amended bounds at the `smC2` run with margin 2, where
the placement exactly reaches the bottom row. -/
theorem c2_witness :
    (0 : Int) ≤ 2 ∧
    (∀ a ∈ (drawPanels smC2 10 10 2).1, a.y + a.h ≤ 10 ∧ a.x + a.w ≤ 10) :=
  ⟨by decide, c2_placements_in_bounds smC2 10 10 2 (by decide)⟩

/-! ## C9 -/

theorem secEquiv_refl (s : Section) (hnd : (s.aliases.map Prod.fst).Nodup) :
    SecEquiv s s :=
  ⟨rfl, hnd, hnd, fun _ => rfl⟩

theorem optSecEquiv_isSome (o₁ o₂ : Option Section) (h : OptSecEquiv o₁ o₂) :
    o₁.isSome = o₂.isSome := by
  cases o₁ with
  | none =>
    cases o₂ with
    | none => rfl
    | some t => exact absurd h (by simp [OptSecEquiv])
  | some s =>
    cases o₂ with
    | none => exact absurd h (by simp [OptSecEquiv])
    | some t => rfl

theorem mapEquiv_keys_perm (sm₁ sm₂ : GoMap Section) (heq : MapEquiv sm₁ sm₂) :
    (sm₁.map Prod.fst).Perm (sm₂.map Prod.fst) := by
  obtain ⟨h1, h2, h3⟩ := heq
  rw [List.perm_ext_iff_of_nodup h1 h2]
  intro q
  rw [← lookupGo_isSome sm₁ q, ← lookupGo_isSome sm₂ q,
    optSecEquiv_isSome (lookupGo sm₁ q) (lookupGo sm₂ q) (h3 q)]

theorem mem_iff_lookupGo {α : Type} (l : GoMap α) (hnd : (l.map Prod.fst).Nodup)
    (k : Str) (v : α) : (k, v) ∈ l ↔ lookupGo l k = some v := by
  induction l with
  | nil => simp [lookupGo]
  | cons kv rest ih =>
    obtain ⟨k', v'⟩ := kv
    simp only [List.map_cons, List.nodup_cons] at hnd
    simp only [lookupGo, List.mem_cons]
    by_cases hk : k' = k
    · subst hk
      rw [if_pos rfl]
      constructor
      · rintro (heq | hmem)
        · injection heq with h1 h2
          rw [h2]
        · have : k' ∈ rest.map Prod.fst := List.mem_map_of_mem Prod.fst hmem
          exact absurd this hnd.1
      · intro hsome
        injection hsome with h1
        left
        rw [h1]
    · rw [if_neg hk, ih hnd.2]
      constructor
      · rintro (heqp | hmem)
        · injection heqp with h1 h2
          exact absurd h1.symm hk
        · exact hmem
      · intro hl
        right
        exact hl

theorem secEquiv_entries_perm (s t : Section) (h : SecEquiv s t) :
    s.aliases.Perm t.aliases := by
  obtain ⟨hl, hnd1, hnd2, hlook⟩ := h
  rw [List.perm_ext_iff_of_nodup (List.Nodup.of_map Prod.fst hnd1)
    (List.Nodup.of_map Prod.fst hnd2)]
  intro kv
  obtain ⟨k, v⟩ := kv
  rw [mem_iff_lookupGo s.aliases hnd1 k v, mem_iff_lookupGo t.aliases hnd2 k v, hlook k]

theorem bodyHeight_congr (pw : Int) (s t : Section) (h : SecEquiv s t) :
    bodyHeight pw s = bodyHeight pw t :=
  List.Perm.sum_eq (List.Perm.map _ (secEquiv_entries_perm s t h))

theorem aliases_nil_congr (s t : Section) (h : SecEquiv s t) :
    s.aliases = [] ↔ t.aliases = [] := by
  have hp := secEquiv_entries_perm s t h
  constructor
  · intro h0
    rw [h0] at hp
    exact hp.symm.eq_nil
  · intro h0
    rw [h0] at hp
    exact hp.eq_nil

theorem sortStrs_congr (l₁ l₂ : List Str) (hp : l₁.Perm l₂) : sortStrs l₁ = sortStrs l₂ :=
  List.eq_of_perm_of_sorted
    ((List.perm_insertionSort _ l₁).trans (hp.trans (List.perm_insertionSort _ l₂).symm))
    (List.sorted_insertionSort _ l₁) (List.sorted_insertionSort _ l₂)

theorem sectionItemsGo_congr (al₁ al₂ : GoMap Alias) (w h : Int)
    (hlook : ∀ k, lookupGo al₁ k = lookupGo al₂ k) :
    ∀ (names : List Str) (rel : Int),
      sectionItemsGo al₁ w h names rel = sectionItemsGo al₂ w h names rel := by
  intro names
  induction names with
  | nil =>
    intro rel
    rfl
  | cons an rest ih =>
    intro rel
    simp only [sectionItemsGo, hlook, ih]

theorem drawSection_congr (x y w hh : Int) (s t : Section) (h : SecEquiv s t) :
    drawSection x y w hh s = drawSection x y w hh t := by
  have hperm : (s.aliases.map Prod.fst).Perm (t.aliases.map Prod.fst) :=
    List.Perm.map _ (secEquiv_entries_perm s t h)
  unfold drawSection
  rw [sortStrs_congr _ _ hperm, sectionItemsGo_congr s.aliases t.aliases w hh h.2.2.2]

theorem packCol_congr (sm₁ sm₂ : GoMap Section) (pw m h : Int) (c : Nat)
    (heq : ∀ k, OptSecEquiv (lookupGo sm₁ k) (lookupGo sm₂ k)) :
    ∀ (blocks : List Str) (py : Int),
      packCol sm₁ pw m h c blocks py = packCol sm₂ pw m h c blocks py := by
  intro blocks
  induction blocks with
  | nil =>
    intro py
    rw [packCol_nil, packCol_nil]
  | cons sl rest ih =>
    intro py
    have hsec : SecEquiv ((lookupGo sm₁ sl).getD zeroSection)
        ((lookupGo sm₂ sl).getD zeroSection) := by
      have h2 := heq sl
      rcases h1 : lookupGo sm₁ sl with _ | s <;> rcases h3 : lookupGo sm₂ sl with _ | t <;>
        rw [h1, h3] at h2
      · exact secEquiv_refl zeroSection List.nodup_nil
      · exact absurd h2 (by simp [OptSecEquiv])
      · exact absurd h2 (by simp [OptSecEquiv])
      · exact h2
    have hbh : bodyHeight pw ((lookupGo sm₁ sl).getD zeroSection) =
        bodyHeight pw ((lookupGo sm₂ sl).getD zeroSection) :=
      bodyHeight_congr pw _ _ hsec
    have hnil : ((lookupGo sm₁ sl).getD zeroSection).aliases = [] ↔
        ((lookupGo sm₂ sl).getD zeroSection).aliases = [] :=
      aliases_nil_congr _ _ hsec
    by_cases hpy : h ≤ py
    · rw [packCol_cons_stop sm₁ pw m h c sl rest py hpy,
        packCol_cons_stop sm₂ pw m h c sl rest py hpy]
    · by_cases hpanic : pw - 2 = 0 ∧ ((lookupGo sm₁ sl).getD zeroSection).aliases ≠ []
      · have hpanic2 : pw - 2 = 0 ∧ ((lookupGo sm₂ sl).getD zeroSection).aliases ≠ [] :=
          ⟨hpanic.1, fun hn => hpanic.2 (hnil.mpr hn)⟩
        rw [packCol_cons_panic sm₁ pw m h c sl rest py hpy hpanic,
          packCol_cons_panic sm₂ pw m h c sl rest py hpy hpanic2]
      · have hpanic2 : ¬ (pw - 2 = 0 ∧ ((lookupGo sm₂ sl).getD zeroSection).aliases ≠ []) :=
          fun hc => hpanic ⟨hc.1, fun hn => hc.2 (hnil.mp hn)⟩
        by_cases hskip :
            h - 2 ≤ py + bodyHeight pw ((lookupGo sm₁ sl).getD zeroSection) - 1
        · rw [packCol_cons_skip sm₁ pw m h c sl rest py hpy hpanic hskip,
            packCol_cons_skip sm₂ pw m h c sl rest py hpy hpanic2 (hbh ▸ hskip)]
        · have hskip2 :
              ¬ h - 2 ≤ py + bodyHeight pw ((lookupGo sm₂ sl).getD zeroSection) - 1 :=
            fun hc => hskip (hbh ▸ hc)
          have hdseq : drawSection (m + (pw + m) * (c : Int)) py pw
              (bodyHeight pw ((lookupGo sm₂ sl).getD zeroSection) + 2)
              ((lookupGo sm₁ sl).getD zeroSection) =
            drawSection (m + (pw + m) * (c : Int)) py pw
              (bodyHeight pw ((lookupGo sm₂ sl).getD zeroSection) + 2)
              ((lookupGo sm₂ sl).getD zeroSection) :=
            drawSection_congr _ _ _ _ _ _ hsec
          cases hds : drawSection (m + (pw + m) * (c : Int)) py pw
              (bodyHeight pw ((lookupGo sm₁ sl).getD zeroSection) + 2)
              ((lookupGo sm₁ sl).getD zeroSection) with
          | err =>
            have hds2 : drawSection (m + (pw + m) * (c : Int)) py pw
                (bodyHeight pw ((lookupGo sm₂ sl).getD zeroSection) + 2)
                ((lookupGo sm₂ sl).getD zeroSection) = .err := by
              rw [← hdseq, ← hbh]
              exact hds
            rw [packCol_cons_err sm₁ pw m h c sl rest py hpy hpanic hskip hds,
              packCol_cons_err sm₂ pw m h c sl rest py hpy hpanic2 hskip2 hds2, hbh]
          | ok items =>
            have hds2 : drawSection (m + (pw + m) * (c : Int)) py pw
                (bodyHeight pw ((lookupGo sm₂ sl).getD zeroSection) + 2)
                ((lookupGo sm₂ sl).getD zeroSection) = .ok items := by
              rw [← hdseq, ← hbh]
              exact hds
            rw [packCol_cons_ok sm₁ pw m h c sl rest py items hpy hpanic hskip hds,
              packCol_cons_ok sm₂ pw m h c sl rest py items hpy hpanic2 hskip2 hds2,
              hbh, ih (py + bodyHeight pw ((lookupGo sm₂ sl).getD zeroSection) + 2)]

theorem packCols_congr (sm₁ sm₂ : GoMap Section) (pw m h : Int)
    (heq : ∀ k, OptSecEquiv (lookupGo sm₁ k) (lookupGo sm₂ k)) :
    ∀ (cols c : Nat) (blocks : List Str),
      packCols sm₁ pw m h cols c blocks = packCols sm₂ pw m h cols c blocks := by
  intro cols
  induction cols with
  | zero =>
    intro c blocks
    rfl
  | succ cols ih =>
    intro c blocks
    simp only [packCols, packCol_congr sm₁ sm₂ pw m h c heq blocks m, ih]

theorem drawSection_ok_items (x y w hh : Int) (sn : Section) (items : List (Str × Str))
    (hds : drawSection x y w hh sn = .ok items) :
    items = sectionItemsGo sn.aliases w hh (sortStrs (sn.aliases.map Prod.fst)) 1 := by
  unfold drawSection at hds
  by_cases h1 : x < 0 ∨ y < 0 ∨ w < 0 ∨ hh < 0
  · rw [if_pos h1] at hds
    exact absurd hds (by simp)
  · rw [if_neg h1] at hds
    by_cases h2 : w - 4 < 0
    · rw [if_pos h2] at hds
      exact absurd hds (by simp)
    · rw [if_neg h2] at hds
      injection hds with h3
      exact h3.symm

theorem sectionItemsGo_names_front (al : GoMap Alias) (w h : Int) :
    ∀ (names : List Str) (rel : Int),
      (sectionItemsGo al w h names rel).map Prod.fst <+: names := by
  intro names
  induction names with
  | nil =>
    intro rel
    exact List.nil_prefix
  | cons an rest ih =>
    intro rel
    simp only [sectionItemsGo]
    by_cases hc : h ≤ rel + minHeight (w - 2) (aliasText ((lookupGo al an).getD zeroAlias))
    · rw [if_pos hc]
      exact List.nil_prefix
    · rw [if_neg hc]
      simp only [List.map_cons]
      exact List.cons_prefix_cons.mpr ⟨rfl, ih _⟩

theorem drawSection_items_sorted (x y w hh : Int) (sn : Section)
    (items : List (Str × Str)) (hds : drawSection x y w hh sn = .ok items) :
    List.Sorted (fun s t : Str => s ≤ t) (items.map Prod.fst) := by
  rw [drawSection_ok_items x y w hh sn items hds]
  exact List.Pairwise.sublist
    (List.IsPrefix.sublist (sectionItemsGo_names_front sn.aliases w hh _ 1))
    (List.sorted_insertionSort _ _)

theorem packCol_items_sorted (sm : GoMap Section) (pw m h : Int) (c : Nat) :
    ∀ (blocks : List Str) (py : Int), ∀ a ∈ (packCol sm pw m h c blocks py).1,
      ∀ items, a.res = .ok items →
        List.Sorted (fun s t : Str => s ≤ t) (items.map Prod.fst) := by
  intro blocks
  induction blocks with
  | nil =>
    intro py a ha
    rw [packCol_nil] at ha
    by_cases hpy : h ≤ py
    · rw [if_pos hpy] at ha
      exact absurd ha (List.not_mem_nil a)
    · rw [if_neg hpy] at ha
      exact absurd ha (List.not_mem_nil a)
  | cons sl rest ih =>
    intro py a ha
    by_cases hpy : h ≤ py
    · rw [packCol_cons_stop sm pw m h c sl rest py hpy] at ha
      exact absurd ha (List.not_mem_nil a)
    · by_cases hpanic : pw - 2 = 0 ∧ ((lookupGo sm sl).getD zeroSection).aliases ≠ []
      · rw [packCol_cons_panic sm pw m h c sl rest py hpy hpanic] at ha
        exact absurd ha (List.not_mem_nil a)
      · by_cases hskip : h - 2 ≤ py + bodyHeight pw ((lookupGo sm sl).getD zeroSection) - 1
        · rw [packCol_cons_skip sm pw m h c sl rest py hpy hpanic hskip] at ha
          exact absurd ha (List.not_mem_nil a)
        · cases hds : drawSection (m + (pw + m) * (c : Int)) py pw
              (bodyHeight pw ((lookupGo sm sl).getD zeroSection) + 2)
              ((lookupGo sm sl).getD zeroSection) with
          | err =>
            rw [packCol_cons_err sm pw m h c sl rest py hpy hpanic hskip hds] at ha
            have ha2 := List.mem_singleton.mp ha
            subst ha2
            intro items hres
            exact absurd hres (by simp)
          | ok items0 =>
            rw [packCol_cons_ok sm pw m h c sl rest py items0 hpy hpanic hskip hds] at ha
            rcases List.mem_cons.mp ha with ha2 | hmem
            · subst ha2
              intro items hres
              have : items0 = items := by
                injection hres
              subst this
              exact drawSection_items_sorted _ _ _ _ _ items0 hds
            · exact ih (py + bodyHeight pw ((lookupGo sm sl).getD zeroSection) + 2) a hmem

theorem packCols_items_sorted (sm : GoMap Section) (pw m h : Int) :
    ∀ (cols c : Nat) (blocks : List Str), ∀ a ∈ (packCols sm pw m h cols c blocks).1,
      ∀ items, a.res = .ok items →
        List.Sorted (fun s t : Str => s ≤ t) (items.map Prod.fst) := by
  intro cols
  induction cols with
  | zero =>
    intro c blocks a ha
    exact absurd ha (List.not_mem_nil a)
  | succ cols ih =>
    intro c blocks a ha
    rcases hpc : packCol sm pw m h c blocks m with ⟨atts, oc⟩
    have hcol := packCol_items_sorted sm pw m h c blocks m
    rw [hpc] at hcol
    cases oc with
    | next blocks2 =>
      rw [packCols_succ_next sm pw m h cols c blocks blocks2 atts hpc] at ha
      rcases List.mem_append.mp ha with h1 | h2
      · exact hcol a h1
      · exact ih (c + 1) blocks2 a h2
    | allDrawn =>
      rw [packCols_succ_allDrawn sm pw m h cols c blocks atts hpc] at ha
      exact hcol a ha
    | aborted =>
      rw [packCols_succ_aborted sm pw m h cols c blocks atts hpc] at ha
      exact hcol a ha
    | panicked =>
      rw [packCols_succ_panicked sm pw m h cols c blocks atts hpc] at ha
      exact hcol a ha

/-- C9: the layout output is deterministic in the group collection's
contents: two collections equal as mappings — same labels and, per label,
sections with equal label and alias mappings, in any entry order — produce
the same pass output (same placements, same drawn items).  Moreover the
labels of the placed blocks are emitted in lexicographically sorted order,
and the items inside each successfully drawn block are in lexicographic
name order. -/
theorem c9_layout_deterministic (sm₁ sm₂ : GoMap Section) (w h m : Int)
    (heq : MapEquiv sm₁ sm₂) :
    drawPanels sm₁ w h m = drawPanels sm₂ w h m ∧
    List.Sorted (fun s t : Str => s ≤ t) (okLabels (drawPanels sm₁ w h m).1) ∧
    (∀ a ∈ (drawPanels sm₁ w h m).1, ∀ items, a.res = .ok items →
      List.Sorted (fun s t : Str => s ≤ t) (items.map Prod.fst)) := by
  refine ⟨?_, ?_, ?_⟩
  · simp only [drawPanels]
    by_cases hsmall : w < minWindowWidth ∨ h < minWindowHeight
    · rw [if_pos hsmall, if_pos hsmall]
    · rw [if_neg hsmall, if_neg hsmall,
        sortStrs_congr _ _ (mapEquiv_keys_perm sm₁ sm₂ heq)]
      exact packCols_congr sm₁ sm₂ _ m h heq.2.2 _ 0 _
  · exact List.Pairwise.sublist
      (List.IsPrefix.sublist (drawPanels_okLabels_front sm₁ w h m))
      (List.sorted_insertionSort _ _)
  · intro a ha items hres
    simp only [drawPanels] at ha
    by_cases hsmall : w < minWindowWidth ∨ h < minWindowHeight
    · rw [if_pos hsmall] at ha
      exact absurd ha (List.not_mem_nil a)
    · rw [if_neg hsmall] at ha
      exact packCols_items_sorted sm₁ _ m h _ 0 _ a ha items hres

theorem mapEquiv_smD : MapEquiv smD1 smD2 := by
  refine ⟨by decide, by decide, ?_⟩
  intro k
  by_cases hA : strA = k
  · subst hA
    have e1 : lookupGo smD1 strA = some secD1 := by decide
    have e2 : lookupGo smD2 strA = some secD1 := by decide
    rw [e1, e2]
    exact secEquiv_refl secD1 (by decide)
  · by_cases hB : strB = k
    · subst hB
      have e1 : lookupGo smD1 strB = some secD2 := by decide
      have e2 : lookupGo smD2 strB = some secD2 := by decide
      rw [e1, e2]
      exact secEquiv_refl secD2 (by decide)
    · have e1 : lookupGo smD1 k = none := by
        simp only [smD1, lookupGo, if_neg hA, if_neg hB]
      have e2 : lookupGo smD2 k = none := by
        simp only [smD2, lookupGo, if_neg hA, if_neg hB]
      rw [e1, e2]
      exact trivial

/-- C9 witness: the two entry orders of the same two-section mapping give
identical passes on a `100 × 24` viewport with margin 2. -/
theorem c9_witness :
    MapEquiv smD1 smD2 ∧ drawPanels smD1 100 24 2 = drawPanels smD2 100 24 2 :=
  ⟨mapEquiv_smD, (c9_layout_deterministic smD1 smD2 100 24 2 mapEquiv_smD).1⟩

end AliasPanel
